import Mathlib

/-!
Shallow embedding of the matching/ranking core of the job-matching backend
(`src/app/crud.py`): the haversine distance calculator (`_haversine`), the
optional distance computation (`_calculate_distance`), and the candidate
selection / scoring / ranking pipeline (`list_job_matches`).

Modelling conventions:
* machine floats become real numbers (`ℝ`); `round(x, 2)` becomes exact
  rounding of `100·x` to the nearest integer divided by 100 (Python rounds
  halves to even, Mathlib's `round` rounds halves up; no property below
  depends on an exact half-way case);
* the database rows become explicit records; a skill is represented by its
  integer id; the set comprehensions over skill ids become `List.toFinset`;
* the SQL query of `list_job_matches` becomes: order the user population by
  descending `created_at`, filter by the `WHERE` conditions (owner excluded,
  and — when the job has required skills — at least one required skill),
  then apply `OFFSET`/`LIMIT` via `List.drop`/`List.take`;
* Python's stable `list.sort(key=...)` becomes `List.insertionSort` (stable)
  with the lexicographic order on the key
  `(-(matching_skills / required_len), distance_km or inf)`; Python's `or`
  sends both `None` and `0.0` to infinity, which `distKey` reproduces.
-/

namespace ProjetoPrime

/-- An address row: latitude/longitude in decimal degrees
(`models.Address`). -/
structure Address where
  latitude : ℝ
  longitude : ℝ

/-- A user row with its eagerly loaded optional address and skill-id set
(`models.User`); `created_at` is the creation timestamp. -/
structure User where
  id : ℕ
  name : String
  created_at : ℤ
  address : Option Address
  skills : List ℕ

/-- A job row: owner (`company_id`), optional coordinates, required
skill ids (`models.Job`). -/
structure Job where
  company_id : ℕ
  latitude : Option ℝ
  longitude : Option ℝ
  skills : List ℕ

/-- A scored match (`schemas.JobMatch`). -/
structure JobMatch where
  user_id : ℕ
  user_name : String
  matching_skills : ℕ
  required_skills : ℕ
  distance_km : Option ℝ

/-- Degrees to radians, `math.radians`. -/
noncomputable def radiansOfDeg (x : ℝ) : ℝ := x * Real.pi / 180

/-- Python's `round(x, 2)`: round to two decimal places. -/
noncomputable def round2 (x : ℝ) : ℝ := ((round (x * 100) : ℤ) : ℝ) / 100

/-- The haversine intermediate
`a = sin²(dlat/2) + cos(lat1)·cos(lat2)·sin²(dlon/2)` computed on the
radian-converted inputs (`_haversine`, src/app/crud.py:201). -/
noncomputable def hav_a (lat1 lon1 lat2 lon2 : ℝ) : ℝ :=
  Real.sin ((radiansOfDeg lat2 - radiansOfDeg lat1) / 2) ^ 2 +
    Real.cos (radiansOfDeg lat1) * Real.cos (radiansOfDeg lat2) *
      Real.sin ((radiansOfDeg lon2 - radiansOfDeg lon1) / 2) ^ 2

/-- Embedding of `_haversine` (src/app/crud.py:194-203): great-circle
distance in km, rounded to 2 decimals, with the `min(1, sqrt(a))` clamp
before `asin`. -/
noncomputable def haversine (lat1 lon1 lat2 lon2 : ℝ) : ℝ :=
  round2 (6371.0 * (2 * Real.arcsin (min 1 (Real.sqrt (hav_a lat1 lon1 lat2 lon2)))))

/-- Embedding of `_calculate_distance` (src/app/crud.py:184-191): `none`
when the job lacks a coordinate or the user has no address, otherwise the
haversine distance between job and address coordinates. -/
noncomputable def calculate_distance (job : Job) (user : User) : Option ℝ :=
  match job.latitude, job.longitude with
  | some lat1, some lon1 =>
    match user.address with
    | some addr => some (haversine lat1 lon1 addr.latitude addr.longitude)
    | none => none
  | _, _ => none

/-- The required-skill id set the code builds from `job.skills`
(src/app/crud.py:147). -/
def requiredIds (job : Job) : Finset ℕ := job.skills.toFinset

/-- The candidate's skill id set the code builds from `user.skills`
(src/app/crud.py:168). -/
def userSkillIds (user : User) : Finset ℕ := user.skills.toFinset

/-- Python's `required_len = len(required_ids) or 1`
(src/app/crud.py:166). -/
def requiredLen (job : Job) : ℕ :=
  if (requiredIds job).card = 0 then 1 else (requiredIds job).card

/-- The `WHERE` conditions of the candidate query (src/app/crud.py:149-162):
not the job owner, and — when the job has required skills — possessing at
least one of them. -/
def eligible (job : Job) (user : User) : Bool :=
  user.id != job.company_id &&
    (job.skills.isEmpty || user.skills.any (fun s => decide (s ∈ requiredIds job)))

/-- The `ORDER BY created_at DESC` of the candidate query, realised by a
stable sort so that the database iteration order breaks ties. -/
def orderByCreatedDesc (users : List User) : List User :=
  List.insertionSort (fun u v => v.created_at ≤ u.created_at) users

/-- The candidate pool of `list_job_matches` (src/app/crud.py:149-163):
ordered population, filtered, then `OFFSET`/`LIMIT`. -/
def selectCandidates (job : Job) (users : List User) (limit offset : ℕ) : List User :=
  (((orderByCreatedDesc users).filter (eligible job)).drop offset).take limit

/-- The scoring loop body (src/app/crud.py:167-179): intersection count
against the required ids (or the candidate's total skill count when the job
requires nothing), the shared `required_len`, and the optional distance. -/
noncomputable def scoreUser (job : Job) (required_len : ℕ) (user : User) : JobMatch :=
  { user_id := user.id
    user_name := user.name
    matching_skills :=
      if (requiredIds job).Nonempty then ((requiredIds job) ∩ userSkillIds user).card
      else (userSkillIds user).card
    required_skills := required_len
    distance_km := calculate_distance job user }

/-- The second sort-key component `m.distance_km or float("inf")`
(src/app/crud.py:180): Python's `or` maps both `None` and `0.0` to
infinity. -/
noncomputable def distKey (d : Option ℝ) : WithTop ℝ :=
  match d with
  | none => ⊤
  | some x => if x = 0 then ⊤ else (x : WithTop ℝ)

/-- The first sort-key component `-(m.matching_skills / required_len)`
(src/app/crud.py:180). -/
noncomputable def fracKey (required_len : ℕ) (m : JobMatch) : ℝ :=
  -((m.matching_skills : ℝ) / (required_len : ℝ))

/-- The total preorder induced by the sort key of src/app/crud.py:180:
lexicographic on `(fracKey, distKey)`. -/
def matchLE (required_len : ℕ) (m1 m2 : JobMatch) : Prop :=
  fracKey required_len m1 < fracKey required_len m2 ∨
    (fracKey required_len m1 = fracKey required_len m2 ∧
      distKey m1.distance_km ≤ distKey m2.distance_km)

noncomputable instance (required_len : ℕ) : DecidableRel (matchLE required_len) :=
  fun _ _ => Classical.propDecidable _

instance (required_len : ℕ) : IsRefl JobMatch (matchLE required_len) :=
  ⟨fun _ => Or.inr ⟨rfl, le_refl _⟩⟩

instance (required_len : ℕ) : IsTotal JobMatch (matchLE required_len) := by
  constructor
  intro a b
  rcases lt_trichotomy (fracKey required_len a) (fracKey required_len b) with h | h | h
  · exact Or.inl (Or.inl h)
  · rcases le_total (distKey a.distance_km) (distKey b.distance_km) with h' | h'
    · exact Or.inl (Or.inr ⟨h, h'⟩)
    · exact Or.inr (Or.inr ⟨h.symm, h'⟩)
  · exact Or.inr (Or.inl h)

instance (required_len : ℕ) : IsTrans JobMatch (matchLE required_len) := by
  constructor
  rintro a b c (hab | ⟨hab, hab'⟩) (hbc | ⟨hbc, hbc'⟩)
  · exact Or.inl (hab.trans hbc)
  · exact Or.inl (hbc ▸ hab)
  · exact Or.inl (hab ▸ hbc)
  · exact Or.inr ⟨hab.trans hbc, hab'.trans hbc'⟩

/-- The stable sort of src/app/crud.py:180 applied to the scored matches. -/
noncomputable def sortMatches (required_len : ℕ) (ms : List JobMatch) : List JobMatch :=
  List.insertionSort (matchLE required_len) ms

/-- Embedding of `list_job_matches` (src/app/crud.py:144-181) as a function
of the job and the user population (in database iteration order). -/
noncomputable def list_job_matches (job : Job) (users : List User) (limit offset : ℕ) :
    List JobMatch :=
  sortMatches (requiredLen job)
    ((selectCandidates job users limit offset).map (scoreUser job (requiredLen job)))

/-- Strict relative placement: `m1` occurs strictly before `m2` wherever
both occur in `l`. -/
def ranksBefore (l : List JobMatch) (m1 m2 : JobMatch) : Prop :=
  ∀ i j : Fin l.length, l.get i = m1 → l.get j = m2 → (i : ℕ) < (j : ℕ)

/-- The overlap fraction `matching_skills / required_skills` of a match
record; for every match produced by `list_job_matches` this denominator is
the call's `required_len` (`required_skills_of_mem`), so minus this
fraction is exactly the primary sort key the code computes. -/
noncomputable def overlapFrac (m : JobMatch) : ℝ :=
  (m.matching_skills : ℝ) / (m.required_skills : ℝ)

/-- The ranking order expressed through each match's own overlap fraction;
it agrees with `matchLE` on the matches of any single call
(`matchLE_iff_rankLE`). -/
def rankLE (m1 m2 : JobMatch) : Prop :=
  -(overlapFrac m1) < -(overlapFrac m2) ∨
    (-(overlapFrac m1) = -(overlapFrac m2) ∧
      distKey m1.distance_km ≤ distKey m2.distance_km)

noncomputable instance : DecidableRel rankLE :=
  fun _ _ => Classical.propDecidable _

instance : IsRefl JobMatch rankLE :=
  ⟨fun _ => Or.inr ⟨rfl, le_refl _⟩⟩

instance : IsTotal JobMatch rankLE := by
  constructor
  intro a b
  rcases lt_trichotomy (-(overlapFrac a)) (-(overlapFrac b)) with h | h | h
  · exact Or.inl (Or.inl h)
  · rcases le_total (distKey a.distance_km) (distKey b.distance_km) with h' | h'
    · exact Or.inl (Or.inr ⟨h, h'⟩)
    · exact Or.inr (Or.inr ⟨h.symm, h'⟩)
  · exact Or.inr (Or.inl h)

instance : IsTrans JobMatch rankLE := by
  constructor
  rintro a b c (hab | ⟨hab, hab'⟩) (hbc | ⟨hbc, hbc'⟩)
  · exact Or.inl (hab.trans hbc)
  · exact Or.inl (hbc ▸ hab)
  · exact Or.inl (hab ▸ hbc)
  · exact Or.inr ⟨hab.trans hbc, hab'.trans hbc'⟩

/-- A user record for the ten-candidate pool of `C4`'s witness. -/
def wUser (i : ℕ) : User := ⟨i, "u", 0, none, []⟩

/-- The pool of ten eligible users for `C4`'s witness. -/
def wUsers : List User :=
  [wUser 0, wUser 1, wUser 2, wUser 3, wUser 4, wUser 5, wUser 6, wUser 7, wUser 8,
    wUser 9]

theorem sortMatches_perm (required_len : ℕ) (ms : List JobMatch) :
    (sortMatches required_len ms).Perm ms :=
  List.perm_insertionSort _ _

theorem sorted_sortMatches (required_len : ℕ) (ms : List JobMatch) :
    List.Sorted (matchLE required_len) (sortMatches required_len ms) :=
  List.sorted_insertionSort _ _

theorem ranksBefore_of_sorted {le : JobMatch → JobMatch → Prop} [IsRefl JobMatch le]
    {l : List JobMatch} {m1 m2 : JobMatch} (hs : List.Sorted le l)
    (h : ¬ le m2 m1) : ranksBefore l m1 m2 := by
  intro i j h1 h2
  rcases lt_trichotomy ((i : ℕ)) ((j : ℕ)) with hij | hij | hij
  · exact hij
  · exfalso
    apply h
    have hm : m1 = m2 := by rw [← h1, ← h2]; exact congrArg l.get (Fin.ext hij)
    rw [hm]
    exact refl_of le m2
  · exfalso
    apply h
    have hrel := hs.rel_get_of_lt (show j < i from Fin.lt_def.mpr hij)
    rw [h1, h2] at hrel
    exact hrel

theorem mem_list_job_matches_iff (job : Job) (users : List User) (limit offset : ℕ)
    (m : JobMatch) :
    m ∈ list_job_matches job users limit offset ↔
      m ∈ (selectCandidates job users limit offset).map (scoreUser job (requiredLen job)) :=
  (sortMatches_perm _ _).mem_iff

theorem required_skills_of_mem {job : Job} {users : List User} {limit offset : ℕ}
    {m : JobMatch} (hm : m ∈ list_job_matches job users limit offset) :
    m.required_skills = requiredLen job := by
  rcases List.mem_map.mp ((mem_list_job_matches_iff job users limit offset m).mp hm) with
    ⟨u, _, rfl⟩
  rfl

theorem fracKey_eq_neg_overlapFrac {required_len : ℕ} {m : JobMatch}
    (h : m.required_skills = required_len) :
    fracKey required_len m = -(overlapFrac m) := by
  subst h; rfl

theorem matchLE_iff_rankLE {required_len : ℕ} {m1 m2 : JobMatch}
    (h1 : m1.required_skills = required_len) (h2 : m2.required_skills = required_len) :
    matchLE required_len m1 m2 ↔ rankLE m1 m2 := by
  unfold matchLE rankLE
  rw [fracKey_eq_neg_overlapFrac h1, fracKey_eq_neg_overlapFrac h2]

theorem distKey_none : distKey (none : Option ℝ) = ⊤ := rfl

theorem distKey_some_zero : distKey (some (0 : ℝ)) = ⊤ := by
  simp [distKey]

theorem distKey_some_ne_zero {x : ℝ} (hx : x ≠ 0) : distKey (some x) = (x : WithTop ℝ) := by
  simp [distKey, hx]

theorem round2_le (x : ℝ) : round2 x ≤ x + 1 / 200 := by
  rw [round2]
  have h : ((round (x * 100) : ℤ) : ℝ) ≤ x * 100 + 1 / 2 := by
    rw [round_eq]
    exact Int.floor_le _
  linarith

theorem round2_nonneg {x : ℝ} (hx : 0 ≤ x) : 0 ≤ round2 x := by
  rw [round2]
  have h : (0 : ℤ) ≤ round (x * 100) := by
    rw [round_eq]
    exact Int.floor_nonneg.mpr (by linarith)
  have h' : (0 : ℝ) ≤ ((round (x * 100) : ℤ) : ℝ) := by exact_mod_cast h
  linarith

/-- C1 counterexample: two candidates with identical overlap fraction
(`matching_skills = required_skills = 1` for both), one with known distance
`0` km and one with known distance `5` km.  The claim says the smaller known
distance ranks first, yet the code ranks the `5` km candidate first: the
`or float("inf")` in the sort key of src/app/crud.py:180 sends the falsy
distance `0.0` to infinity. -/
theorem C1_counterexample :
    sortMatches 1 [⟨1, "a", 1, 1, some 0⟩, ⟨2, "b", 1, 1, some 5⟩] =
      [⟨2, "b", 1, 1, some 5⟩, ⟨1, "a", 1, 1, some 0⟩] ∧ (0 : ℝ) < 5 := by
  have hnot : ¬ matchLE 1 (⟨1, "a", 1, 1, some 0⟩ : JobMatch) ⟨2, "b", 1, 1, some 5⟩ := by
    rintro (h | ⟨-, h⟩)
    · exact lt_irrefl _ h
    · rw [show (⟨1, "a", 1, 1, some 0⟩ : JobMatch).distance_km = some 0 from rfl,
        show (⟨2, "b", 1, 1, some 5⟩ : JobMatch).distance_km = some 5 from rfl,
        distKey_some_zero, distKey_some_ne_zero (by norm_num : (5 : ℝ) ≠ 0)] at h
      simp at h
  refine ⟨?_, by norm_num⟩
  simp only [sortMatches, List.insertionSort, List.orderedInsert, hnot, if_false,
    ite_false]

/-- C1 (amended): among candidates with identical overlap fraction, the one
with the smaller **positive** known distance ranks first, and a candidate
with unknown distance — or with known distance exactly `0`, which the sort
key treats as unknown — sorts after every candidate with a positive known
distance. -/
theorem C1_amended_tiebreak (required_len : ℕ) (ms : List JobMatch) (m1 m2 : JobMatch)
    (h1 : m1 ∈ ms) (h2 : m2 ∈ ms)
    (hf : fracKey required_len m1 = fracKey required_len m2)
    (d1 : ℝ) (hd1 : m1.distance_km = some d1) (hpos : 0 < d1)
    (hcase : (∃ d2, m2.distance_km = some d2 ∧ d1 < d2) ∨ m2.distance_km = none ∨
      m2.distance_km = some 0) :
    m1 ∈ sortMatches required_len ms ∧ m2 ∈ sortMatches required_len ms ∧
      ranksBefore (sortMatches required_len ms) m1 m2 := by
  refine ⟨(sortMatches_perm _ _).mem_iff.mpr h1, (sortMatches_perm _ _).mem_iff.mpr h2, ?_⟩
  apply ranksBefore_of_sorted (sorted_sortMatches _ _)
  rintro (h | ⟨-, hle⟩)
  · exact absurd hf.symm (ne_of_lt h)
  · rw [hd1, distKey_some_ne_zero hpos.ne'] at hle
    rcases hcase with ⟨d2, hd2, hlt⟩ | hnone | hzero
    · rw [hd2, distKey_some_ne_zero (hpos.trans hlt).ne'] at hle
      exact absurd hle (not_le.mpr (by exact_mod_cast hlt))
    · rw [hnone, distKey_none] at hle
      simp at hle
    · rw [hzero, distKey_some_zero] at hle
      simp at hle

/-- C1 witness: overlap fraction `1/1` on both sides; known distance `1` km
ranks before unknown distance. -/
theorem C1_amended_tiebreak_witness :
    (⟨1, "a", 1, 1, some 1⟩ : JobMatch) ∈
        sortMatches 1 [⟨2, "b", 1, 1, none⟩, ⟨1, "a", 1, 1, some 1⟩] ∧
      (⟨2, "b", 1, 1, none⟩ : JobMatch) ∈
        sortMatches 1 [⟨2, "b", 1, 1, none⟩, ⟨1, "a", 1, 1, some 1⟩] ∧
      ranksBefore (sortMatches 1 [⟨2, "b", 1, 1, none⟩, ⟨1, "a", 1, 1, some 1⟩])
        ⟨1, "a", 1, 1, some 1⟩ ⟨2, "b", 1, 1, none⟩ :=
  C1_amended_tiebreak 1 _ _ _ (by simp) (by simp) rfl 1 rfl one_pos (Or.inr (Or.inl rfl))

/-- C2: a candidate scoring `matching_skills = 1` of `required_skills = 1`
(overlap fraction `1.0`) ranks strictly before one scoring
`matching_skills = 2` of `required_skills = 5` (fraction `0.4`) under the
ranking order: the primary key the sort of src/app/crud.py:180 computes for
a scored match equals minus its overlap fraction (`fracKey_eq_neg_overlapFrac`
together with `required_skills_of_mem`), not minus the raw matching count. -/
theorem C2_fraction_over_raw_count (m1 m2 : JobMatch)
    (hm1 : m1.matching_skills = 1) (hr1 : m1.required_skills = 1)
    (hm2 : m2.matching_skills = 2) (hr2 : m2.required_skills = 5) :
    overlapFrac m1 = 1 ∧ overlapFrac m2 = 2 / 5 ∧ ¬ rankLE m2 m1 ∧
      ∀ ms : List JobMatch, m1 ∈ ms → m2 ∈ ms →
        m1 ∈ List.insertionSort rankLE ms ∧ m2 ∈ List.insertionSort rankLE ms ∧
          ranksBefore (List.insertionSort rankLE ms) m1 m2 := by
  have hf1 : overlapFrac m1 = 1 := by rw [overlapFrac, hm1, hr1]; norm_num
  have hf2 : overlapFrac m2 = 2 / 5 := by rw [overlapFrac, hm2, hr2]; norm_num
  have hnot : ¬ rankLE m2 m1 := by
    rintro (h | ⟨h, -⟩) <;> rw [hf1, hf2] at h <;> norm_num at h
  refine ⟨hf1, hf2, hnot, fun ms h1 h2 => ?_⟩
  exact ⟨(List.perm_insertionSort _ _).mem_iff.mpr h1,
    (List.perm_insertionSort _ _).mem_iff.mpr h2,
    ranksBefore_of_sorted (List.sorted_insertionSort _ _) hnot⟩

/-- C2 witness: the two concrete score profiles sorted together. -/
theorem C2_fraction_over_raw_count_witness :
    ranksBefore
      (List.insertionSort rankLE [⟨2, "y", 2, 5, none⟩, ⟨1, "x", 1, 1, none⟩])
      ⟨1, "x", 1, 1, none⟩ ⟨2, "y", 2, 5, none⟩ :=
  ((C2_fraction_over_raw_count ⟨1, "x", 1, 1, none⟩ ⟨2, "y", 2, 5, none⟩ rfl rfl rfl
        rfl).2.2.2
      [⟨2, "y", 2, 5, none⟩, ⟨1, "x", 1, 1, none⟩] (by simp) (by simp)).2.2

/-- C3: a candidate whose computed distance is exactly `0` km is keyed as if
its distance were unknown (`distKey (some 0) = distKey none = ⊤`), so among
candidates with equal overlap fraction it sorts after every candidate with a
positive known distance. -/
theorem C3_zero_distance_sorts_as_unknown
    (required_len : ℕ) (ms : List JobMatch) (m0 mp : JobMatch)
    (h0 : m0 ∈ ms) (hp : mp ∈ ms)
    (hf : fracKey required_len m0 = fracKey required_len mp)
    (hz : m0.distance_km = some 0)
    (d : ℝ) (hd : mp.distance_km = some d) (hdpos : 0 < d) :
    distKey m0.distance_km = distKey (none : Option ℝ) ∧
      mp ∈ sortMatches required_len ms ∧ m0 ∈ sortMatches required_len ms ∧
      ranksBefore (sortMatches required_len ms) mp m0 := by
  refine ⟨by rw [hz, distKey_some_zero, distKey_none],
    (sortMatches_perm _ _).mem_iff.mpr hp, (sortMatches_perm _ _).mem_iff.mpr h0, ?_⟩
  apply ranksBefore_of_sorted (sorted_sortMatches _ _)
  rintro (h | ⟨-, hle⟩)
  · exact absurd hf (ne_of_lt h)
  · rw [hz, distKey_some_zero, hd, distKey_some_ne_zero hdpos.ne'] at hle
    simp at hle

/-- C3 witness: distance `0` km sorts after distance `5` km at equal
fraction. -/
theorem C3_zero_distance_sorts_as_unknown_witness :
    distKey ((⟨1, "a", 1, 1, some 0⟩ : JobMatch)).distance_km = distKey (none : Option ℝ) ∧
      (⟨2, "b", 1, 1, some 5⟩ : JobMatch) ∈
        sortMatches 1 [⟨1, "a", 1, 1, some 0⟩, ⟨2, "b", 1, 1, some 5⟩] ∧
      (⟨1, "a", 1, 1, some 0⟩ : JobMatch) ∈
        sortMatches 1 [⟨1, "a", 1, 1, some 0⟩, ⟨2, "b", 1, 1, some 5⟩] ∧
      ranksBefore (sortMatches 1 [⟨1, "a", 1, 1, some 0⟩, ⟨2, "b", 1, 1, some 5⟩])
        ⟨2, "b", 1, 1, some 5⟩ ⟨1, "a", 1, 1, some 0⟩ :=
  C3_zero_distance_sorts_as_unknown 1 _ _ _ (by simp) (by simp) rfl rfl 5 rfl
    (by norm_num)

/-- C4: pagination is applied to the creation-descending filtered pool
before ranking: the ranked output has `min limit (pool.length - offset)`
entries and is a permutation of the scores of exactly the `[offset,
offset+limit)` window of that pool.  In particular (final conjunct), with
`limit = 2`, `offset = 0` over a pool of `10` eligible candidates the result
has exactly `2` entries, the scores of the first `2` pool candidates —
not the globally best `2`. -/
theorem C4_pagination_before_ranking (job : Job) (users : List User) (limit offset : ℕ) :
    (list_job_matches job users limit offset).length =
        min limit (((orderByCreatedDesc users).filter (eligible job)).length - offset) ∧
      (list_job_matches job users limit offset).Perm
        ((selectCandidates job users limit offset).map (scoreUser job (requiredLen job))) ∧
      (((orderByCreatedDesc users).filter (eligible job)).length = 10 →
        (list_job_matches job users 2 0).length = 2 ∧
          (list_job_matches job users 2 0).Perm
            ((((orderByCreatedDesc users).filter (eligible job)).take 2).map
              (scoreUser job (requiredLen job)))) := by
  have hperm : ∀ l o : ℕ, (list_job_matches job users l o).Perm
      ((selectCandidates job users l o).map (scoreUser job (requiredLen job))) :=
    fun _ _ => sortMatches_perm _ _
  have hlen : ∀ l o : ℕ, (list_job_matches job users l o).length =
      min l (((orderByCreatedDesc users).filter (eligible job)).length - o) := by
    intro l o
    rw [(hperm l o).length_eq, List.length_map, selectCandidates, List.length_take,
      List.length_drop]
  refine ⟨hlen limit offset, hperm limit offset, fun h10 => ⟨?_, ?_⟩⟩
  · rw [hlen 2 0, h10]
    decide
  · have h := hperm 2 0
    rw [selectCandidates, List.drop_zero] at h
    exact h

/-- C4 witness: ten eligible candidates, `limit = 2`, `offset = 0`. -/
theorem C4_pagination_before_ranking_witness :
    (list_job_matches ⟨100, none, none, []⟩ wUsers 2 0).length = 2 ∧
      (list_job_matches ⟨100, none, none, []⟩ wUsers 2 0).Perm
        ((((orderByCreatedDesc wUsers).filter (eligible ⟨100, none, none, []⟩)).take 2).map
          (scoreUser ⟨100, none, none, []⟩ (requiredLen ⟨100, none, none, []⟩))) :=
  (C4_pagination_before_ranking ⟨100, none, none, []⟩ wUsers 2 0).2.2 rfl

/-- C5: when the job's required-skill set is empty, every returned match
carries `required_skills = 1` and `matching_skills` equal to its candidate's
total (deduplicated) skill count. -/
theorem C5_no_requirements_scoring (job : Job) (users : List User) (limit offset : ℕ)
    (hempty : job.skills = []) :
    ∀ m ∈ list_job_matches job users limit offset,
      m.required_skills = 1 ∧
        ∃ u ∈ selectCandidates job users limit offset,
          m = scoreUser job (requiredLen job) u ∧
            m.matching_skills = (userSkillIds u).card := by
  intro m hm
  have hreq : requiredIds job = ∅ := by rw [requiredIds, hempty]; rfl
  have hlen : requiredLen job = 1 := by rw [requiredLen, hreq]; simp
  rcases List.mem_map.mp ((mem_list_job_matches_iff job users limit offset m).mp hm) with
    ⟨u, hu, rfl⟩
  refine ⟨hlen, u, hu, rfl, ?_⟩
  show (if (requiredIds job).Nonempty then ((requiredIds job) ∩ userSkillIds u).card
      else (userSkillIds u).card) = (userSkillIds u).card
  rw [hreq]
  simp

/-- C5 witness: a job requiring nothing scores a candidate with one skill as
`matching_skills = 1`, `required_skills = 1`. -/
theorem C5_no_requirements_scoring_witness :
    (⟨1, "u", 1, 1, none⟩ : JobMatch).required_skills = 1 ∧
      ∃ u ∈ selectCandidates ⟨100, none, none, []⟩ [⟨1, "u", 0, none, [7]⟩] 50 0,
        (⟨1, "u", 1, 1, none⟩ : JobMatch) =
            scoreUser ⟨100, none, none, []⟩ (requiredLen ⟨100, none, none, []⟩) u ∧
          (⟨1, "u", 1, 1, none⟩ : JobMatch).matching_skills = (userSkillIds u).card :=
  C5_no_requirements_scoring ⟨100, none, none, []⟩ [⟨1, "u", 0, none, [7]⟩] 50 0 rfl
    ⟨1, "u", 1, 1, none⟩
    (show (⟨1, "u", 1, 1, none⟩ : JobMatch) ∈ [(⟨1, "u", 1, 1, none⟩ : JobMatch)] from
      List.mem_singleton.mpr rfl)

/-- C6: the job owner (the user whose id equals the job's `company_id`)
never appears among the returned matches. -/
theorem C6_owner_excluded (job : Job) (users : List User) (limit offset : ℕ)
    (m : JobMatch) (hm : m ∈ list_job_matches job users limit offset) :
    m.user_id ≠ job.company_id := by
  rcases List.mem_map.mp ((mem_list_job_matches_iff job users limit offset m).mp hm) with
    ⟨u, hu, rfl⟩
  have hu' : u ∈ (orderByCreatedDesc users).filter (eligible job) :=
    List.drop_subset _ _ (List.take_subset _ _ hu)
  have h := (List.mem_filter.mp hu').2
  simp only [eligible, Bool.and_eq_true, bne_iff_ne, ne_eq] at h
  exact h.1

/-- C6 witness: the sole candidate returned is not the owner. -/
theorem C6_owner_excluded_witness :
    (⟨1, "u", 1, 1, none⟩ : JobMatch).user_id ≠ (⟨100, none, none, []⟩ : Job).company_id :=
  C6_owner_excluded ⟨100, none, none, []⟩ [⟨1, "u", 0, none, [7]⟩] 50 0
    ⟨1, "u", 1, 1, none⟩
    (show (⟨1, "u", 1, 1, none⟩ : JobMatch) ∈ [(⟨1, "u", 1, 1, none⟩ : JobMatch)] from
      List.mem_singleton.mpr rfl)

/-- C7 counterexample: at the exactly antipodal valid coordinates
`(0°, 0°)` and `(0°, 180°)` the haversine intermediate is `a = 1`, so
`c = 2·asin(1) = π` and the pre-rounding distance is exactly `6371·π ≈
20015.08680`; rounding to two decimals returns `20015.09`, which is
**strictly greater** than `6371·π`, refuting the claimed `≤ 6371·π` bound
on the returned value. -/
theorem C7_counterexample : 6371 * Real.pi < haversine 0 0 0 180 := by
  have h0 : radiansOfDeg 0 = 0 := by rw [radiansOfDeg]; ring
  have h180 : radiansOfDeg 180 = Real.pi := by
    rw [radiansOfDeg]
    field_simp
  have ha : hav_a 0 0 0 180 = 1 := by
    rw [hav_a, h0, h180]
    simp [Real.sin_pi_div_two]
  have hc : haversine 0 0 0 180 = round2 (6371 * Real.pi) := by
    rw [haversine, ha, Real.sqrt_one, min_self, Real.arcsin_one]
    ring_nf
  have hlow : (3.14159265358979323846 : ℝ) < Real.pi := Real.pi_gt_d20
  have hhigh : Real.pi < 3.14159265358979323847 := Real.pi_lt_d20
  have hround : round ((6371 : ℝ) * Real.pi * 100) = 2001509 := by
    rw [round_eq, show (6371 : ℝ) * Real.pi * 100 = 637100 * Real.pi by ring]
    have h1 : ((2001509 : ℤ) : ℝ) ≤ 637100 * Real.pi + 1 / 2 := by
      push_cast
      nlinarith
    have h2 : 637100 * Real.pi + 1 / 2 < (2001509 : ℤ) + 1 := by
      push_cast
      nlinarith
    exact Int.floor_eq_iff.mpr ⟨h1, h2⟩
  rw [hc, round2, hround]
  nlinarith

/-- C7 (amended): for **every** pair of coordinate pairs the argument passed
to `asin` stays within `[-1, 1]` thanks to the `min(1, sqrt(a))` clamp, and
the returned value is a well-defined real with
`0 ≤ haversine ≤ 6371·π + 0.005`: the `6371·π` bound holds for the
pre-rounding distance, and rounding to two decimals can add at most
`0.005` (and does exceed `6371·π` at antipodal points, see the
counterexample above). -/
theorem C7_clamp_and_bound (lat1 lon1 lat2 lon2 : ℝ) :
    (-1 ≤ min 1 (Real.sqrt (hav_a lat1 lon1 lat2 lon2)) ∧
        min 1 (Real.sqrt (hav_a lat1 lon1 lat2 lon2)) ≤ 1) ∧
      0 ≤ haversine lat1 lon1 lat2 lon2 ∧
        haversine lat1 lon1 lat2 lon2 ≤ 6371 * Real.pi + 1 / 200 := by
  have h0s : 0 ≤ min 1 (Real.sqrt (hav_a lat1 lon1 lat2 lon2)) :=
    le_min zero_le_one (Real.sqrt_nonneg _)
  have h1s : min 1 (Real.sqrt (hav_a lat1 lon1 lat2 lon2)) ≤ 1 := min_le_left _ _
  have harc0 : 0 ≤ Real.arcsin (min 1 (Real.sqrt (hav_a lat1 lon1 lat2 lon2))) :=
    Real.arcsin_nonneg.mpr h0s
  have harc1 : Real.arcsin (min 1 (Real.sqrt (hav_a lat1 lon1 lat2 lon2))) ≤ Real.pi / 2 :=
    Real.arcsin_le_pi_div_two _
  refine ⟨⟨by linarith, h1s⟩, ?_, ?_⟩
  · exact round2_nonneg (by nlinarith)
  · have hle := round2_le
      (6371.0 * (2 * Real.arcsin (min 1 (Real.sqrt (hav_a lat1 lon1 lat2 lon2)))))
    rw [haversine]
    nlinarith

/-- C8: the distance computation yields `none` (an absent value, not a
failure) exactly when the job lacks a latitude or a longitude or the
candidate has no address; and every selected candidate — whatever its
distance — still yields a ranked match carrying exactly that optional
distance. -/
theorem C8_missing_geodata (job : Job) (user : User) :
    (calculate_distance job user = none ↔
        job.latitude = none ∨ job.longitude = none ∨ user.address = none) ∧
      ∀ (users : List User) (limit offset : ℕ),
        user ∈ selectCandidates job users limit offset →
          ∃ m ∈ list_job_matches job users limit offset,
            m.user_id = user.id ∧ m.distance_km = calculate_distance job user := by
  constructor
  · obtain ⟨cid, lat, lon, jskills⟩ := job
    obtain ⟨uid, uname, ucreated, addr, uskills⟩ := user
    rcases lat with _ | lat <;> rcases lon with _ | lon <;> rcases addr with _ | addr <;>
      simp [calculate_distance]
  · intro users limit offset hu
    exact ⟨scoreUser job (requiredLen job) user,
      (mem_list_job_matches_iff job users limit offset _).mpr (List.mem_map_of_mem _ hu),
      rfl, rfl⟩

/-- C8 witness: a job with no coordinates still produces a ranked match for
its one candidate, with absent distance. -/
theorem C8_missing_geodata_witness :
    ∃ m ∈ list_job_matches ⟨100, none, none, []⟩ [⟨1, "u", 0, none, []⟩] 50 0,
      m.user_id = (⟨1, "u", 0, none, []⟩ : User).id ∧
        m.distance_km = calculate_distance ⟨100, none, none, []⟩ ⟨1, "u", 0, none, []⟩ :=
  (C8_missing_geodata ⟨100, none, none, []⟩ ⟨1, "u", 0, none, []⟩).2
    [⟨1, "u", 0, none, []⟩] 50 0
    (show (⟨1, "u", 0, none, []⟩ : User) ∈ [(⟨1, "u", 0, none, []⟩ : User)] from
      List.mem_singleton.mpr rfl)

/-- C9: the haversine distance is symmetric in its two coordinate pairs:
the intermediate `a` is unchanged under swapping the points (squared sines
of negated half-differences, commuted cosine product), hence so is the
rounded distance. -/
theorem C9_distance_symmetric (lat1 lon1 lat2 lon2 : ℝ) :
    haversine lat1 lon1 lat2 lon2 = haversine lat2 lon2 lat1 lon1 := by
  have hsin : ∀ x y : ℝ, Real.sin ((x - y) / 2) ^ 2 = Real.sin ((y - x) / 2) ^ 2 := by
    intro x y
    rw [show (y - x) / 2 = -((x - y) / 2) by ring, Real.sin_neg, neg_sq]
  have ha : hav_a lat1 lon1 lat2 lon2 = hav_a lat2 lon2 lat1 lon1 := by
    rw [hav_a, hav_a, hsin (radiansOfDeg lat2) (radiansOfDeg lat1),
      hsin (radiansOfDeg lon2) (radiansOfDeg lon1),
      mul_comm (Real.cos (radiansOfDeg lat1)) (Real.cos (radiansOfDeg lat2))]
  rw [haversine, haversine, ha]

/-- C10: when the job's required-skill set `R` is non-empty, every returned
match satisfies `matching_skills ≤ required_skills` and
`required_skills = |R|` (so the overlap fraction never exceeds one); and the
bound genuinely fails when `R` is empty: a concrete match then has
`matching_skills = 2 > 1 = required_skills`. -/
theorem C10_overlap_fraction_bound (job : Job) (users : List User) (limit offset : ℕ) :
    (job.skills ≠ [] →
      ∀ m ∈ list_job_matches job users limit offset,
        m.matching_skills ≤ m.required_skills ∧
          m.required_skills = (requiredIds job).card) ∧
      ∃ job' : Job, ∃ users' : List User, ∃ m : JobMatch,
        job'.skills = [] ∧ m ∈ list_job_matches job' users' 50 0 ∧
          m.required_skills = 1 ∧ 1 < m.matching_skills := by
  constructor
  · intro hne m hm
    have hnonempty : (requiredIds job).Nonempty :=
      (List.toFinset_nonempty_iff job.skills).mpr hne
    have hcard : (requiredIds job).card ≠ 0 := by
      exact Nat.pos_iff_ne_zero.mp (Finset.card_pos.mpr hnonempty)
    have hlen : requiredLen job = (requiredIds job).card := by
      rw [requiredLen, if_neg hcard]
    rcases List.mem_map.mp ((mem_list_job_matches_iff job users limit offset m).mp hm) with
      ⟨u, _, rfl⟩
    constructor
    · show (if (requiredIds job).Nonempty then ((requiredIds job) ∩ userSkillIds u).card
          else (userSkillIds u).card) ≤ requiredLen job
      rw [if_pos hnonempty, hlen]
      exact Finset.card_le_card Finset.inter_subset_left
    · exact hlen
  · refine ⟨⟨100, none, none, []⟩, [⟨1, "u", 0, none, [1, 2]⟩], ⟨1, "u", 2, 1, none⟩,
      rfl, ?_, rfl, by norm_num⟩
    exact show (⟨1, "u", 2, 1, none⟩ : JobMatch) ∈ [(⟨1, "u", 2, 1, none⟩ : JobMatch)] from
      List.mem_singleton.mpr rfl

/-- C10 witness: a job requiring skill `3` and a candidate holding it. -/
theorem C10_overlap_fraction_bound_witness :
    (⟨1, "u", 1, 1, none⟩ : JobMatch).matching_skills ≤
        (⟨1, "u", 1, 1, none⟩ : JobMatch).required_skills ∧
      (⟨1, "u", 1, 1, none⟩ : JobMatch).required_skills =
        (requiredIds ⟨100, none, none, [3]⟩).card :=
  (C10_overlap_fraction_bound ⟨100, none, none, [3]⟩ [⟨1, "u", 0, none, [3]⟩] 50 0).1
    (by simp) ⟨1, "u", 1, 1, none⟩
    (show (⟨1, "u", 1, 1, none⟩ : JobMatch) ∈ [(⟨1, "u", 1, 1, none⟩ : JobMatch)] from
      List.mem_singleton.mpr rfl)

end ProjetoPrime
